import Mathlib

/-!
Verification development for `convert_TestCase_assert_statements_to_assert_methods.py`,
a LibCST-based source rewriter that converts `assert X == Y` statements inside
`TestCase` methods into `self.assertEqual(X, Y)` calls.

The Python program is shallowly embedded: the fragment of the LibCST node model
that the program reads and constructs is modelled as Lean inductive types
(strings are modelled as `String` / `List Char`), and the transformer's visit /
leave methods become pure functions threading an explicit `State`.  The CST
library's parser and full-module serializer are external collaborators and are
taken as parameters where the driver uses them.
-/

namespace ConvertAssert

/-! ### Character-level string primitives

These model the Python `str` operations used by `_strip_line_continuation`:
`value.replace("\r\n", "\n")`, `"\\\n" in value`, `value.rsplit("\\\n", 1)`
and `str.rstrip()`.  They are implemented over `List Char` (Python strings are
sequences of code points). -/

/-- Characters stripped by Python `str.rstrip()` that can occur in whitespace
runs: space, tab, newline, carriage return, vertical tab, form feed. -/
def isPySpace (c : Char) : Bool :=
  c = ' ' || c = '\t' || c = '\n' || c = '\r' || c = Char.ofNat 11 || c = Char.ofNat 12

/-- Python `s.rstrip()`: remove trailing whitespace characters. -/
def pyRstrip (cs : List Char) : List Char :=
  ((cs.reverse.dropWhile isPySpace)).reverse

/-- Python `s.replace("\r\n", "\n")`: left-to-right, non-overlapping. -/
def replaceCRLF : List Char → List Char
  | [] => []
  | '\r' :: '\n' :: rest => '\n' :: replaceCRLF rest
  | c :: rest => c :: replaceCRLF rest

/-- Python `s.rsplit("\x5c\n", 1)` combined with the `"\x5c\n" in s` test:
`some (before, after)` splits `s` at the LAST occurrence of the two-character
sequence backslash-newline; `none` when the sequence does not occur. -/
def rsplitBN : List Char → Option (List Char × List Char)
  | [] => none
  | '\\' :: '\n' :: rest =>
    match rsplitBN rest with
    | some (b, a) => some ('\\' :: '\n' :: b, a)
    | none => some ([], rest)
  | c :: rest =>
    match rsplitBN rest with
    | some (b, a) => some (c :: b, a)
    | none => none

/-- Validity invariant of a LibCST `SimpleWhitespace` value: every newline
character is escaped, i.e. immediately preceded by a backslash. -/
def noUnescNL : List Char → Bool
  | [] => true
  | '\\' :: '\n' :: rest => noUnescNL rest
  | '\n' :: _ => false
  | _ :: rest => noUnescNL rest

/-! ### Whitespace node model (the LibCST fragment the program touches) -/

/-- LibCST `TrailingWhitespace`: optional inline whitespace, optional comment,
and a newline.  `newline = none` models `Newline()` with its default value,
which serializes as the canonical `"\n"`. -/
structure TrailingWhitespace where
  whitespace : String := ""
  comment : Option String := none
  newline : Option String := none
  deriving Repr, DecidableEq

/-- LibCST `BaseParenthesizableWhitespace`: either a `SimpleWhitespace` (an
inline run that may contain escaped line continuations but no bare newline) or
a `ParenthesizedWhitespace` (a structured multi-line run). -/
inductive PWs where
  | SimpleWhitespace (value : String)
  | ParenthesizedWhitespace (first_line : TrailingWhitespace)
      (empty_lines : List String) (indent : Bool) (last_line : String)
  deriving Repr, DecidableEq

/-- LibCST `Comma` with its two whitespace fields. -/
structure Comma where
  whitespace_before : PWs := PWs.SimpleWhitespace ""
  whitespace_after : PWs := PWs.SimpleWhitespace ""
  deriving Repr, DecidableEq

/-- Embedding of `AssertEqualTransformer._strip_line_continuation`:
on a `SimpleWhitespace`, normalize `"\r\n"` to `"\n"`, and if a
backslash-newline continuation is present, split at its last occurrence and
rebuild as a `ParenthesizedWhitespace` whose first line holds the rstripped
text before the continuation and whose last line holds the text after it.
All other whitespace is returned unchanged.  (In the Python source the
split is `value.rsplit("\x5c\n", 1)` guarded by `"\x5c\n" in value`; `rsplitBN`
fuses the guard and the split.) -/
def strip_line_continuation (ws : PWs) : PWs :=
  match ws with
  | PWs.SimpleWhitespace v =>
    let value := replaceCRLF v.data
    match rsplitBN value with
    | some (before_newline, after_newline) =>
      PWs.ParenthesizedWhitespace
        { whitespace := String.mk (pyRstrip before_newline),
          comment := none,
          newline := none }
        [] false (String.mk after_newline)
    | none => ws
  | _ => ws

example : strip_line_continuation (PWs.SimpleWhitespace " \\\n  ") =
    PWs.ParenthesizedWhitespace { whitespace := "", comment := none, newline := none }
      [] false "  " := by rfl

example : strip_line_continuation (PWs.SimpleWhitespace "  ") =
    PWs.SimpleWhitespace "  " := by rfl

example : strip_line_continuation (PWs.SimpleWhitespace " \\\r\n\t") =
    PWs.ParenthesizedWhitespace { whitespace := "", comment := none, newline := none }
      [] false "\t" := by rfl

/-! ### Expression node model

The comparison operators the program distinguishes (`cst.Equal` by
`isinstance`; everything else falls through unchanged), each carrying the two
whitespace fields LibCST gives every comparison operator. -/

inductive CompOp where
  | Equal (whitespace_before whitespace_after : PWs)
  | NotEqual (whitespace_before whitespace_after : PWs)
  | LessThan (whitespace_before whitespace_after : PWs)
  | GreaterThan (whitespace_before whitespace_after : PWs)
  | OtherOp (token : String) (whitespace_before whitespace_after : PWs)
  deriving Repr, DecidableEq

/-- The `whitespace_after` field shared by all LibCST comparison operators. -/
def CompOp.whitespace_after : CompOp → PWs
  | CompOp.Equal _ wa => wa
  | CompOp.NotEqual _ wa => wa
  | CompOp.LessThan _ wa => wa
  | CompOp.GreaterThan _ wa => wa
  | CompOp.OtherOp _ _ wa => wa

/-- Source token of a comparison operator, for serialization. -/
def CompOp.token : CompOp → String
  | CompOp.Equal _ _ => "=="
  | CompOp.NotEqual _ _ => "!="
  | CompOp.LessThan _ _ => "<"
  | CompOp.GreaterThan _ _ => ">"
  | CompOp.OtherOp t _ _ => t

mutual

/-- LibCST expression fragment read or built by the transformer: `Name`,
`Attribute` (with the `Dot`'s two whitespace strings), `Comparison`, `Call`
(with its two whitespace fields), `SimpleString`, and `Atom`, an opaque leaf
carrying its exact source rendering, standing for any other expression. -/
inductive Expr where
  | Name (value : String)
  | Attribute (value : Expr) (dot_ws_before dot_ws_after : String) (attr : String)
  | Comparison (left : Expr) (comparisons : List ComparisonTarget)
  | Call (func : Expr) (args : List Arg)
      (whitespace_after_func whitespace_before_args : PWs)
  | SimpleString (value : String)
  | Atom (code : String)

/-- LibCST `ComparisonTarget`: one operator and its right-hand comparator. -/
inductive ComparisonTarget where
  | mk (operator : CompOp) (comparator : Expr)

/-- LibCST `Arg` restricted to the fields the program uses: the value and an
optional explicit `Comma` (`none` models `MaybeSentinel.DEFAULT`). -/
inductive Arg where
  | mk (value : Expr) (comma : Option Comma)

end

/-- Operator of a `ComparisonTarget`. -/
def ComparisonTarget.operator : ComparisonTarget → CompOp
  | ComparisonTarget.mk op _ => op

/-- Comparator of a `ComparisonTarget`. -/
def ComparisonTarget.comparator : ComparisonTarget → Expr
  | ComparisonTarget.mk _ c => c

/-- Value of an `Arg`. -/
def Arg.value : Arg → Expr
  | Arg.mk v _ => v

/-- Comma of an `Arg`. -/
def Arg.comma : Arg → Option Comma
  | Arg.mk _ c => c

/-! ### Serialization (`code_for_node`)

Rendering of the modelled fragment back to source text, mirroring LibCST
codegen for these nodes.  `ParenthesizedWhitespace` is rendered for the
`indent = False` case the program constructs (module-level rendering without
an indentation context). -/

/-- Serialization of `TrailingWhitespace`: whitespace, optional comment, then
the newline (default `"\n"`). -/
def TrailingWhitespace.toCode (tw : TrailingWhitespace) : String :=
  tw.whitespace ++ (tw.comment.getD "") ++ (tw.newline.getD "\n")

/-- Serialization of parenthesizable whitespace. -/
def PWs.toCode : PWs → String
  | PWs.SimpleWhitespace v => v
  | PWs.ParenthesizedWhitespace fl el _ ll => fl.toCode ++ String.join el ++ ll

/-- Serialization of a `Comma`. -/
def Comma.toCode (c : Comma) : String :=
  c.whitespace_before.toCode ++ "," ++ c.whitespace_after.toCode

mutual

/-- Serialization of an expression (LibCST `Module.code_for_node`). -/
def exprToCode : Expr → String
  | Expr.Name v => v
  | Expr.Attribute v wb wa attr => exprToCode v ++ wb ++ "." ++ wa ++ attr
  | Expr.Comparison left cmps => exprToCode left ++ targetsToCode cmps
  | Expr.Call f args waf wba =>
    exprToCode f ++ waf.toCode ++ "(" ++ wba.toCode ++ argsToCode args ++ ")"
  | Expr.SimpleString v => v
  | Expr.Atom code => code

/-- Serialization of a list of comparison targets. -/
def targetsToCode : List ComparisonTarget → String
  | [] => ""
  | ComparisonTarget.mk op c :: rest =>
    opHeadToCode op ++ exprToCode c ++ targetsToCode rest

/-- Serialization of one comparison operator with its surrounding whitespace. -/
def opHeadToCode (op : CompOp) : String :=
  match op with
  | CompOp.Equal wb wa => wb.toCode ++ "==" ++ wa.toCode
  | CompOp.NotEqual wb wa => wb.toCode ++ "!=" ++ wa.toCode
  | CompOp.LessThan wb wa => wb.toCode ++ "<" ++ wa.toCode
  | CompOp.GreaterThan wb wa => wb.toCode ++ ">" ++ wa.toCode
  | CompOp.OtherOp t wb wa => wb.toCode ++ t ++ wa.toCode

/-- Serialization of a call's argument list.  An `Arg` whose comma is
`MaybeSentinel.DEFAULT` (`none`) renders `", "` between arguments and nothing
after the last one, as in LibCST. -/
def argsToCode : List Arg → String
  | [] => ""
  | [Arg.mk v comma] =>
    exprToCode v ++ (match comma with | some c => c.toCode | none => "")
  | Arg.mk v comma :: rest =>
    exprToCode v ++ (match comma with | some c => c.toCode | none => ", ") ++
      argsToCode rest

end

/-! ### Statement node model -/

/-- LibCST `Assert`, restricted to the fields the program reads: condition,
optional message, optional explicit comma (`none` = `MaybeSentinel.DEFAULT`),
and the whitespace after the `assert` keyword (for serialization). -/
structure AssertStmt where
  test : Expr
  msg : Option Expr := none
  comma : Option Comma := none
  whitespace_after_assert : PWs := PWs.SimpleWhitespace " "

/-- LibCST small statement: `Assert`, `Expr` (expression statement), or an
opaque other small statement carrying its source rendering. -/
inductive SmallStmt where
  | Assert (a : AssertStmt)
  | ExprStmt (value : Expr)
  | OtherSmall (code : String)

/-- LibCST `SimpleStatementLine`: its statement body plus the line trivia the
rewrite must not touch (leading blank/comment lines, trailing whitespace,
inline comment and newline). -/
structure SimpleLine where
  body : List SmallStmt
  leading_lines : List String := []
  trailing_whitespace : TrailingWhitespace := {}

/-- LibCST `Param`, restricted to the one field read: the parameter name. -/
structure Param where
  name : String

/-- LibCST statement fragment traversed by the transformer: simple statement
lines, class definitions (name, base-class expressions, body), function
definitions (name, positional parameters, body), and any other compound
statement with a nested body (`if`, `for`, `with`, ...). -/
inductive Stmt where
  | simpleLine (line : SimpleLine)
  | classDef (name : String) (bases : List Expr) (body : List Stmt)
  | functionDef (name : String) (params : List Param) (body : List Stmt)
  | compound (body : List Stmt)

/-- Embedding of the module-level helper `get_assert_statement`: the line must
contain exactly one statement and that statement must be an `Assert`. -/
def get_assert_statement (line : SimpleLine) : Option AssertStmt :=
  match line.body with
  | [SmallStmt.Assert a] => some a
  | _ => none

/-! ### The transformer -/

/-- Mutable fields of `AssertEqualTransformer`, threaded explicitly. -/
structure State where
  in_test_class : Bool := false
  in_method : Bool := false
  num_changes : Nat := 0
  deriving Repr, DecidableEq

/-- Python substring test `pat in s`, over character lists. -/
def containsSeq (pat : List Char) : List Char → Bool
  | [] => pat.isEmpty
  | c :: rest => pat.isPrefixOf (c :: rest) || containsSeq pat rest

/-- Embedding of `AssertEqualTransformer._node_to_string` composed with the
Python substring test `"TestCase" in base_str`. -/
def baseMentionsTestCase (base : Expr) : Bool :=
  containsSeq "TestCase".data (exprToCode base).data

/-- Embedding of `AssertEqualTransformer.visit_ClassDef`: set `in_test_class`
when any base-class expression, rendered to source, contains `"TestCase"`
(the Python loop only ever sets the flag, so the early `return True` is
equivalent to this `if`).  Descent always continues. -/
def visit_ClassDef (st : State) (bases : List Expr) : State :=
  if bases.any baseMentionsTestCase then { st with in_test_class := true } else st

/-- Embedding of `AssertEqualTransformer.leave_ClassDef`: unconditionally clear
`in_test_class`. -/
def leave_ClassDef (st : State) : State :=
  { st with in_test_class := false }

/-- Embedding of `AssertEqualTransformer.visit_FunctionDef`: inside a test
class, set `in_method` only when the parameter list is non-empty and the first
parameter is named `self`. -/
def visit_FunctionDef (st : State) (params : List Param) : State :=
  if st.in_test_class then
    match params with
    | p :: _ => if p.name = "self" then { st with in_method := true } else st
    | [] => st
  else st

/-- Embedding of `AssertEqualTransformer.leave_FunctionDef`: unconditionally
clear `in_method`. -/
def leave_FunctionDef (st : State) : State :=
  { st with in_method := false }

/-- The pure rewrite attempted by `leave_SimpleStatementLine` once both scope
flags are known to be active: `some` of the rewritten line when the line is a
single `assert` whose condition is a comparison with exactly one operator and
that operator is `==`; `none` when any of those checks fails and the line is
returned unchanged.  The construction mirrors the Python source: the first
argument's comma takes its `whitespace_after` from the (continuation-stripped)
whitespace after `==`; when a message and an explicit assert comma are present
the second argument reuses that comma with its `whitespace_after`
continuation-stripped, and the message is appended as a third argument. -/
def attempt_rewrite (updated : SimpleLine) : Option SimpleLine :=
  match get_assert_statement updated with
  | none => none
  | some assert_statement =>
    match assert_statement.test with
    | Expr.Comparison left comparisons =>
      match comparisons with
      | [ComparisonTarget.mk op right] =>
        match op with
        | CompOp.Equal _ ws_after_eq =>
          let message := assert_statement.msg
          let first_arg := Arg.mk left (some
            { whitespace_after := strip_line_continuation ws_after_eq })
          let second_arg :=
            match message, assert_statement.comma with
            | some _, some c => Arg.mk right (some
                { c with whitespace_after := strip_line_continuation c.whitespace_after })
            | _, _ => Arg.mk right none
          let args :=
            match message with
            | some m => [first_arg, second_arg, Arg.mk m none]
            | none => [first_arg, second_arg]
          let new_call := Expr.Call
            (Expr.Attribute (Expr.Name "self") "" "" "assertEqual") args
            (PWs.SimpleWhitespace "") (PWs.SimpleWhitespace "")
          some { updated with body := [SmallStmt.ExprStmt new_call] }
        | _ => none
      | _ => none
    | _ => none

/-- Embedding of `AssertEqualTransformer.leave_SimpleStatementLine`: outside a
qualifying scope the line passes through untouched; inside, a successful
`attempt_rewrite` replaces the body and increments `num_changes` by one. -/
def leave_SimpleStatementLine (st : State) (updated : SimpleLine) :
    SimpleLine × State :=
  if !(st.in_test_class && st.in_method) then (updated, st)
  else
    match attempt_rewrite updated with
    | some newLine => (newLine, { st with num_changes := st.num_changes + 1 })
    | none => (updated, st)

mutual

/-- One statement's traversal by the LibCST walker with this transformer:
pre-order visit, recursive transformation of children, post-order leave. -/
def visitStmt (st : State) : Stmt → Stmt × State
  | Stmt.simpleLine l =>
    (Stmt.simpleLine (leave_SimpleStatementLine st l).1,
      (leave_SimpleStatementLine st l).2)
  | Stmt.classDef n bases body =>
    (Stmt.classDef n bases (visitStmts (visit_ClassDef st bases) body).1,
      leave_ClassDef (visitStmts (visit_ClassDef st bases) body).2)
  | Stmt.functionDef n ps body =>
    (Stmt.functionDef n ps (visitStmts (visit_FunctionDef st ps) body).1,
      leave_FunctionDef (visitStmts (visit_FunctionDef st ps) body).2)
  | Stmt.compound body =>
    (Stmt.compound (visitStmts st body).1, (visitStmts st body).2)

/-- Traversal of a statement list, threading the transformer state. -/
def visitStmts (st : State) : List Stmt → List Stmt × State
  | [] => ([], st)
  | x :: xs =>
    ((visitStmt st x).1 :: (visitStmts (visitStmt st x).2 xs).1,
      (visitStmts (visitStmt st x).2 xs).2)

end

/-- One whole-module traversal with a fresh transformer: `tree.visit(t)`
starting from `AssertEqualTransformer.__init__`'s state, returning the new
tree and the final `num_changes`. -/
def transformModule (m : List Stmt) : List Stmt × Nat :=
  let (m2, st) := visitStmts {} m
  (m2, st.num_changes)

/-- Embedding of `transform_file`.  The CST parser and serializer are the
external LibCST collaborators `cst.parse_module` / `Module.code`, passed as
parameters.  The result is the content written back (or `none` when no write
happens) together with the returned change count: a parse failure returns 0
and performs no write; a write happens only when `num_changes > 0`. -/
def transform_file (parse : String → Option (List Stmt))
    (serialize : List Stmt → String) (source : String) : Option String × Nat :=
  match parse source with
  | none => (none, 0)
  | some tree =>
    let (new_tree, n) := transformModule tree
    if n > 0 then (some (serialize new_tree), n) else (none, n)

/-! ### Line-level serialization -/

/-- Serialization of a small statement.  An `Assert` renders the keyword, its
trailing whitespace, the condition, and — when a message is present — the
comma (a `MaybeSentinel.DEFAULT` comma renders `", "`) and the message. -/
def smallStmtToCode : SmallStmt → String
  | SmallStmt.Assert a =>
    "assert" ++ a.whitespace_after_assert.toCode ++ exprToCode a.test ++
      (match a.msg with
        | none => ""
        | some m =>
          (match a.comma with | some c => c.toCode | none => ", ") ++ exprToCode m)
  | SmallStmt.ExprStmt e => exprToCode e
  | SmallStmt.OtherSmall code => code

/-- Serialization of a simple statement line's body (semicolon separation for
the multi-statement case, which the rewrite never touches). -/
def lineBodyToCode : List SmallStmt → String
  | [] => ""
  | [s] => smallStmtToCode s
  | s :: rest => smallStmtToCode s ++ "; " ++ lineBodyToCode rest

/-- Serialization of a `SimpleStatementLine` (its leading trivia lines, body,
and trailing whitespace/comment/newline); the enclosing block contributes the
indentation. -/
def lineToCode (l : SimpleLine) : String :=
  String.join l.leading_lines ++ lineBodyToCode l.body ++ l.trailing_whitespace.toCode

/-! ### Concrete fixtures (the spec's §8 examples) -/

/-- The statement line `assert compute(x) == 5`. -/
def exAssertLine : SimpleLine :=
  { body := [SmallStmt.Assert
      { test := Expr.Comparison (Expr.Atom "compute(x)")
          [ComparisonTarget.mk
            (CompOp.Equal (PWs.SimpleWhitespace " ") (PWs.SimpleWhitespace " "))
            (Expr.Atom "5")] }] }

/-- The statement line `assert a == b`. -/
def exAssertAB : SimpleLine :=
  { body := [SmallStmt.Assert
      { test := Expr.Comparison (Expr.Name "a")
          [ComparisonTarget.mk
            (CompOp.Equal (PWs.SimpleWhitespace " ") (PWs.SimpleWhitespace " "))
            (Expr.Name "b")] }] }

/-- The statement line `assert a == b, "boom"`. -/
def exAssertBoom : SimpleLine :=
  { body := [SmallStmt.Assert
      { test := Expr.Comparison (Expr.Name "a")
          [ComparisonTarget.mk
            (CompOp.Equal (PWs.SimpleWhitespace " ") (PWs.SimpleWhitespace " "))
            (Expr.Name "b")],
        msg := some (Expr.SimpleString "\"boom\""),
        comma := some { whitespace_after := PWs.SimpleWhitespace " " } }] }

/-- The spec's targeted-rewrite module:
`class FooTest(TestCase): def test_bar(self): assert compute(x) == 5`. -/
def exModule : List Stmt :=
  [Stmt.classDef "FooTest" [Expr.Atom "TestCase"]
    [Stmt.functionDef "test_bar" [⟨"self"⟩] [Stmt.simpleLine exAssertLine]]]

example : (transformModule exModule).2 = 1 := by rfl

example :
    (transformModule exModule).1 =
      [Stmt.classDef "FooTest" [Expr.Atom "TestCase"]
        [Stmt.functionDef "test_bar" [⟨"self"⟩]
          [Stmt.simpleLine
            { body := [SmallStmt.ExprStmt (Expr.Call
                (Expr.Attribute (Expr.Name "self") "" "" "assertEqual")
                [Arg.mk (Expr.Atom "compute(x)")
                  (some { whitespace_after := PWs.SimpleWhitespace " " }),
                 Arg.mk (Expr.Atom "5") none]
                (PWs.SimpleWhitespace "") (PWs.SimpleWhitespace "")) ] }]]] := by rfl

example :
    lineToCode ((leave_SimpleStatementLine
      { in_test_class := true, in_method := true } exAssertLine).1) =
      "self.assertEqual(compute(x), 5)\n" := by rfl

example :
    lineToCode ((leave_SimpleStatementLine
      { in_test_class := true, in_method := true } exAssertBoom).1) =
      "self.assertEqual(a, b, \"boom\")\n" := by rfl

/-! ### Helper lemmas -/

theorem leave_of_not_scope (st : State) (l : SimpleLine)
    (h : (st.in_test_class && st.in_method) = false) :
    leave_SimpleStatementLine st l = (l, st) := by
  simp [leave_SimpleStatementLine, h]

theorem attempt_rewrite_of_no_assert (l : SimpleLine)
    (h : get_assert_statement l = none) : attempt_rewrite l = none := by
  simp [attempt_rewrite, h]

theorem attempt_rewrite_shape (l nl : SimpleLine)
    (h : attempt_rewrite l = some nl) :
    ∃ e, nl = { l with body := [SmallStmt.ExprStmt e] } := by
  unfold attempt_rewrite at h
  repeat' split at h
  all_goals first
    | exact Option.noConfusion h
    | exact ⟨_, (Option.some.inj h).symm⟩

theorem attempt_rewrite_idem (l nl : SimpleLine)
    (h : attempt_rewrite l = some nl) : attempt_rewrite nl = none := by
  obtain ⟨e, rfl⟩ := attempt_rewrite_shape l nl h
  apply attempt_rewrite_of_no_assert
  simp [get_assert_statement]

theorem leave_scope_none (st : State) (l : SimpleLine)
    (h : (st.in_test_class && st.in_method) = true)
    (har : attempt_rewrite l = none) :
    leave_SimpleStatementLine st l = (l, st) := by
  simp [leave_SimpleStatementLine, h, har]

theorem leave_scope_some (st : State) (l nl : SimpleLine)
    (h : (st.in_test_class && st.in_method) = true)
    (har : attempt_rewrite l = some nl) :
    leave_SimpleStatementLine st l =
      (nl, { st with num_changes := st.num_changes + 1 }) := by
  simp [leave_SimpleStatementLine, h, har]

theorem leave_state_flags (st : State) (l : SimpleLine) :
    ((leave_SimpleStatementLine st l).2).in_test_class = st.in_test_class ∧
      ((leave_SimpleStatementLine st l).2).in_method = st.in_method := by
  cases h : (st.in_test_class && st.in_method) with
  | false => rw [leave_of_not_scope st l h]; exact ⟨rfl, rfl⟩
  | true =>
    cases har : attempt_rewrite l with
    | none => rw [leave_scope_none st l h har]; exact ⟨rfl, rfl⟩
    | some nl => rw [leave_scope_some st l nl h har]; exact ⟨rfl, rfl⟩

theorem leave_trivia (st : State) (l : SimpleLine) :
    (leave_SimpleStatementLine st l).1 =
      { l with body := ((leave_SimpleStatementLine st l).1).body } := by
  cases h : (st.in_test_class && st.in_method) with
  | false => rw [leave_of_not_scope st l h]
  | true =>
    cases har : attempt_rewrite l with
    | none => rw [leave_scope_none st l h har]
    | some nl =>
      rw [leave_scope_some st l nl h har]
      obtain ⟨e, rfl⟩ := attempt_rewrite_shape l nl har
      rfl

theorem leave_idem (st st2 : State) (l : SimpleLine)
    (h1 : st2.in_test_class = st.in_test_class)
    (h2 : st2.in_method = st.in_method) :
    leave_SimpleStatementLine st2 (leave_SimpleStatementLine st l).1 =
      ((leave_SimpleStatementLine st l).1, st2) := by
  cases h : (st.in_test_class && st.in_method) with
  | false =>
    have h' : (st2.in_test_class && st2.in_method) = false := by
      rw [h1, h2]; exact h
    rw [leave_of_not_scope st l h]
    exact leave_of_not_scope st2 l h'
  | true =>
    have h' : (st2.in_test_class && st2.in_method) = true := by
      rw [h1, h2]; exact h
    cases har : attempt_rewrite l with
    | none =>
      rw [leave_scope_none st l h har]
      exact leave_scope_none st2 l h' har
    | some nl =>
      rw [leave_scope_some st l nl h har]
      exact leave_scope_none st2 nl h' (attempt_rewrite_idem l nl har)

theorem visit_ClassDef_in_method (st : State) (bases : List Expr) :
    (visit_ClassDef st bases).in_method = st.in_method := by
  unfold visit_ClassDef; split <;> rfl

theorem visit_ClassDef_num (st : State) (bases : List Expr) :
    (visit_ClassDef st bases).num_changes = st.num_changes := by
  unfold visit_ClassDef; split <;> rfl

theorem visit_ClassDef_itc_congr (st st2 : State) (bases : List Expr)
    (h : st2.in_test_class = st.in_test_class) :
    (visit_ClassDef st2 bases).in_test_class =
      (visit_ClassDef st bases).in_test_class := by
  unfold visit_ClassDef; split <;> simp [h]

theorem visit_FunctionDef_in_test_class (st : State) (ps : List Param) :
    (visit_FunctionDef st ps).in_test_class = st.in_test_class := by
  unfold visit_FunctionDef
  repeat split
  all_goals rfl

theorem visit_FunctionDef_num (st : State) (ps : List Param) :
    (visit_FunctionDef st ps).num_changes = st.num_changes := by
  unfold visit_FunctionDef
  repeat split
  all_goals rfl

theorem visit_FunctionDef_im_congr (st st2 : State) (ps : List Param)
    (h1 : st2.in_test_class = st.in_test_class)
    (h2 : st2.in_method = st.in_method) :
    (visit_FunctionDef st2 ps).in_method = (visit_FunctionDef st ps).in_method := by
  unfold visit_FunctionDef
  simp only [h1]
  repeat split
  all_goals simp [h2]

theorem State.ext3 (a b : State)
    (h1 : a.in_test_class = b.in_test_class)
    (h2 : a.in_method = b.in_method)
    (h3 : a.num_changes = b.num_changes) : a = b := by
  cases a; cases b; simp_all

theorem leave_ClassDef_itc (s : State) : (leave_ClassDef s).in_test_class = false := rfl

theorem leave_ClassDef_im (s : State) : (leave_ClassDef s).in_method = s.in_method := rfl

theorem leave_ClassDef_num (s : State) :
    (leave_ClassDef s).num_changes = s.num_changes := rfl

theorem leave_FunctionDef_itc (s : State) :
    (leave_FunctionDef s).in_test_class = s.in_test_class := rfl

theorem leave_FunctionDef_im (s : State) : (leave_FunctionDef s).in_method = false := rfl

theorem leave_FunctionDef_num (s : State) :
    (leave_FunctionDef s).num_changes = s.num_changes := rfl

/-- Idempotence property for one statement: re-running the traversal on an
already-transformed statement, from any state with the same scope flags,
changes nothing, adds no count, and evolves the flags identically. -/
def IdemP1 (st : State) (s : Stmt) : Prop :=
  ∀ st2 : State, st2.in_test_class = st.in_test_class →
    st2.in_method = st.in_method →
    visitStmt st2 (visitStmt st s).1 =
      ((visitStmt st s).1,
        { st2 with in_test_class := (visitStmt st s).2.in_test_class,
                   in_method := (visitStmt st s).2.in_method })

/-- Idempotence property for a statement list. -/
def IdemP2 (st : State) (ls : List Stmt) : Prop :=
  ∀ st2 : State, st2.in_test_class = st.in_test_class →
    st2.in_method = st.in_method →
    visitStmts st2 (visitStmts st ls).1 =
      ((visitStmts st ls).1,
        { st2 with in_test_class := (visitStmts st ls).2.in_test_class,
                   in_method := (visitStmts st ls).2.in_method })

theorem visit_idem_stmts (st : State) (ls : List Stmt) : IdemP2 st ls := by
  refine visitStmts.induct IdemP1 IdemP2 ?_ ?_ ?_ ?_ ?_ ?_ st ls
  · -- simple statement line
    intro st l st2 h1 h2
    simp only [visitStmt]
    rw [leave_idem st st2 l h1 h2]
    refine Prod.ext rfl (State.ext3 _ _ ?_ ?_ ?_) <;>
      simp [(leave_state_flags st l).1, (leave_state_flags st l).2, h1, h2]
  · -- class definition
    intro st n bases body ih st2 h1 h2
    have hA1 : (visit_ClassDef st2 bases).in_test_class =
        (visit_ClassDef st bases).in_test_class :=
      visit_ClassDef_itc_congr st st2 bases h1
    have hA2 : (visit_ClassDef st2 bases).in_method =
        (visit_ClassDef st bases).in_method := by
      rw [visit_ClassDef_in_method, visit_ClassDef_in_method, h2]
    have ih2 := ih (visit_ClassDef st2 bases) hA1 hA2
    simp only [visitStmt]
    rw [ih2]
    refine Prod.ext rfl (State.ext3 _ _ ?_ ?_ ?_) <;>
      simp [leave_ClassDef_itc, leave_ClassDef_im, leave_ClassDef_num,
        visit_ClassDef_num]
  · -- function definition
    intro st n ps body ih st2 h1 h2
    have hA1 : (visit_FunctionDef st2 ps).in_test_class =
        (visit_FunctionDef st ps).in_test_class := by
      rw [visit_FunctionDef_in_test_class, visit_FunctionDef_in_test_class, h1]
    have hA2 : (visit_FunctionDef st2 ps).in_method =
        (visit_FunctionDef st ps).in_method :=
      visit_FunctionDef_im_congr st st2 ps h1 h2
    have ih2 := ih (visit_FunctionDef st2 ps) hA1 hA2
    simp only [visitStmt]
    rw [ih2]
    refine Prod.ext rfl (State.ext3 _ _ ?_ ?_ ?_) <;>
      simp [leave_FunctionDef_itc, leave_FunctionDef_im, leave_FunctionDef_num,
        visit_FunctionDef_num]
  · -- other compound statement
    intro st body ih st2 h1 h2
    have ih2 := ih st2 h1 h2
    simp only [visitStmt]
    rw [ih2]
  · -- empty list
    intro st st2 h1 h2
    simp only [visitStmts]
    refine Prod.ext rfl (State.ext3 _ _ ?_ ?_ ?_) <;> simp [h1, h2]
  · -- cons
    intro st x xs ih1 ih2 st2 h1 h2
    have hx := ih1 st2 h1 h2
    simp only [visitStmts]
    rw [hx]
    have hxs := ih2 ({ st2 with
        in_test_class := (visitStmt st x).2.in_test_class,
        in_method := (visitStmt st x).2.in_method }) rfl rfl
    simp only []
    rw [hxs]

/-! ### Lemmas about the line-continuation stripping primitives -/

theorem noUnescNL_cons_of_ne (c : Char) (rest : List Char)
    (hne : ∀ r1 : List Char, c = '\\' → rest = '\n' :: r1 → False) :
    noUnescNL (c :: rest) = if c = '\n' then false else noUnescNL rest := by
  rw [noUnescNL.eq_def]
  split
  · next heq => exact absurd heq (by simp)
  · next r heq =>
    obtain ⟨hc, hr⟩ := List.cons.inj heq
    exact (hne r hc hr).elim
  · next t heq =>
    obtain ⟨hc, _⟩ := List.cons.inj heq
    simp [hc]
  · next d r hne2 hnl heq =>
    obtain ⟨hc, hr⟩ := List.cons.inj heq
    subst hc; subst hr
    rw [if_neg hnl]

theorem rsplitBN_cons_of_ne (c : Char) (rest : List Char)
    (hne : ∀ r1 : List Char, c = '\\' → rest = '\n' :: r1 → False) :
    rsplitBN (c :: rest) =
      (match rsplitBN rest with
        | some (b, a) => some (c :: b, a)
        | none => none) := by
  rw [rsplitBN.eq_def]
  split
  · next heq => exact absurd heq (by simp)
  · next r heq =>
    obtain ⟨hc, hr⟩ := List.cons.inj heq
    exact (hne r hc hr).elim
  · next d r heq =>
    obtain ⟨hc, hr⟩ := List.cons.inj heq
    subst hc; subst hr
    rfl

theorem rsplitBN_append (v : List Char) :
    ∀ b a, rsplitBN v = some (b, a) → v = b ++ '\\' :: '\n' :: a := by
  induction v using rsplitBN.induct with
  | case1 => intro b a h; exact absurd h (by simp [rsplitBN])
  | case2 rest b' a' hsplit ih =>
    intro b a h
    rw [rsplitBN, hsplit] at h
    obtain ⟨hb, ha⟩ := Prod.mk.inj (Option.some.inj h)
    subst hb; subst ha
    simp [ih b' a' hsplit]
  | case3 rest hnone ih =>
    intro b a h
    rw [rsplitBN, hnone] at h
    obtain ⟨hb, ha⟩ := Prod.mk.inj (Option.some.inj h)
    subst hb; subst ha
    rfl
  | case4 c rest hne b' a' hsplit ih =>
    intro b a h
    simp only [rsplitBN_cons_of_ne c rest hne, hsplit] at h
    obtain ⟨hb, ha⟩ := Prod.mk.inj (Option.some.inj h)
    subst hb; subst ha
    simp [ih b' a' hsplit]
  | case5 c rest hne hnone ih =>
    intro b a h
    simp [rsplitBN_cons_of_ne c rest hne, hnone] at h

theorem rsplitBN_after_none (v : List Char) :
    ∀ b a, rsplitBN v = some (b, a) → rsplitBN a = none := by
  induction v using rsplitBN.induct with
  | case1 => intro b a h; exact absurd h (by simp [rsplitBN])
  | case2 rest b' a' hsplit ih =>
    intro b a h
    rw [rsplitBN, hsplit] at h
    obtain ⟨_, ha⟩ := Prod.mk.inj (Option.some.inj h)
    subst ha
    exact ih b' a' hsplit
  | case3 rest hnone ih =>
    intro b a h
    rw [rsplitBN, hnone] at h
    obtain ⟨_, ha⟩ := Prod.mk.inj (Option.some.inj h)
    subst ha
    exact hnone
  | case4 c rest hne b' a' hsplit ih =>
    intro b a h
    simp only [rsplitBN_cons_of_ne c rest hne, hsplit] at h
    obtain ⟨_, ha⟩ := Prod.mk.inj (Option.some.inj h)
    subst ha
    exact ih b' a' hsplit
  | case5 c rest hne hnone ih =>
    intro b a h
    simp [rsplitBN_cons_of_ne c rest hne, hnone] at h

theorem rsplitBN_none_noNL (v : List Char) :
    noUnescNL v = true → rsplitBN v = none → ¬ '\n' ∈ v := by
  induction v using rsplitBN.induct with
  | case1 => intro _ _; simp
  | case2 rest b' a' hsplit ih =>
    intro _ h2
    rw [rsplitBN, hsplit] at h2
    exact absurd h2 (by simp)
  | case3 rest hnone ih =>
    intro _ h2
    rw [rsplitBN, hnone] at h2
    exact absurd h2 (by simp)
  | case4 c rest hne b' a' hsplit ih =>
    intro _ h2
    simp [rsplitBN_cons_of_ne c rest hne, hsplit] at h2
  | case5 c rest hne hnone ih =>
    intro h1 h2
    rw [noUnescNL_cons_of_ne c rest hne] at h1
    by_cases hc : c = '\n'
    · simp [hc] at h1
    · simp only [hc, if_false] at h1
      have hrest := ih h1 hnone
      simp [List.mem_cons, hrest]
      exact fun hx => hc hx.symm

theorem rsplitBN_parts (v : List Char) :
    ∀ b a, noUnescNL v = true → rsplitBN v = some (b, a) →
      noUnescNL b = true ∧ noUnescNL a = true ∧ ¬ '\n' ∈ a := by
  induction v using rsplitBN.induct with
  | case1 => intro b a _ h; exact absurd h (by simp [rsplitBN])
  | case2 rest b' a' hsplit ih =>
    intro b a h1 h
    rw [rsplitBN, hsplit] at h
    obtain ⟨hb, ha⟩ := Prod.mk.inj (Option.some.inj h)
    subst hb; subst ha
    have h1' : noUnescNL rest = true := by simpa [noUnescNL] using h1
    obtain ⟨hb', ha', hnl⟩ := ih b' a' h1' hsplit
    exact ⟨by simpa [noUnescNL] using hb', ha', hnl⟩
  | case3 rest hnone ih =>
    intro b a h1 h
    rw [rsplitBN, hnone] at h
    obtain ⟨hb, ha⟩ := Prod.mk.inj (Option.some.inj h)
    subst hb; subst ha
    have h1' : noUnescNL rest = true := by simpa [noUnescNL] using h1
    exact ⟨rfl, h1', rsplitBN_none_noNL rest h1' hnone⟩
  | case4 c rest hne b' a' hsplit ih =>
    intro b a h1 h
    simp only [rsplitBN_cons_of_ne c rest hne, hsplit] at h
    obtain ⟨hb, ha⟩ := Prod.mk.inj (Option.some.inj h)
    subst hb; subst ha
    rw [noUnescNL_cons_of_ne c rest hne] at h1
    by_cases hc : c = '\n'
    · simp [hc] at h1
    · simp only [hc, if_false] at h1
      obtain ⟨hb', ha', hnl⟩ := ih b' a' h1 hsplit
      have hneb : ∀ r1 : List Char, c = '\\' → b' = '\n' :: r1 → False := by
        intro r1 hcb hb1
        have hv := rsplitBN_append rest b' a' hsplit
        rw [hb1] at hv
        exact hne (r1 ++ '\\' :: '\n' :: a') hcb (by simpa using hv)
      refine ⟨?_, ha', hnl⟩
      rw [noUnescNL_cons_of_ne c b' hneb]
      simp [hc, hb']
  | case5 c rest hne hnone ih =>
    intro b a h1 h
    simp [rsplitBN_cons_of_ne c rest hne, hnone] at h

theorem noUnescNL_append_left (l : List Char) :
    ∀ t, noUnescNL (l ++ t) = true → noUnescNL l = true := by
  induction l using noUnescNL.induct with
  | case1 => intro t _; rfl
  | case2 rest ih =>
    intro t h
    simp only [List.cons_append] at h
    have h' : noUnescNL (rest ++ t) = true := by simpa [noUnescNL] using h
    simpa [noUnescNL] using ih t h'
  | case3 tail =>
    intro t h
    simp [noUnescNL] at h
  | case4 head rest hne hnl ih =>
    intro t h
    rw [noUnescNL_cons_of_ne head rest hne, if_neg hnl]
    cases rest with
    | nil => rfl
    | cons d r =>
      have h' : noUnescNL (d :: r ++ t) = true := by
        simp only [List.cons_append] at h ⊢
        rw [noUnescNL_cons_of_ne head (d :: (r ++ t)) (by
          intro r1 hcb hdt
          obtain ⟨hd, _⟩ := List.cons.inj hdt
          exact hne r hcb (by rw [hd])), if_neg hnl] at h
        exact h
      exact ih t h'

theorem pyRstrip_prefix (b : List Char) : pyRstrip b <+: b := by
  unfold pyRstrip
  have h1 : (b.reverse.dropWhile isPySpace) <:+ b.reverse := List.dropWhile_suffix _
  have := List.reverse_prefix.mpr h1
  simpa using this

theorem noUnescNL_pyRstrip (b : List Char) (h : noUnescNL b = true) :
    noUnescNL (pyRstrip b) = true := by
  obtain ⟨t, ht⟩ := pyRstrip_prefix b
  exact noUnescNL_append_left (pyRstrip b) t (by rw [ht]; exact h)

theorem visitStmts_simpleLines_untouched (st : State)
    (hflag : (st.in_test_class && st.in_method) = false) :
    ∀ ls : List Stmt, (∀ x ∈ ls, ∃ l, x = Stmt.simpleLine l) →
      visitStmts st ls = (ls, st) := by
  intro ls
  induction ls with
  | nil => intro _; simp [visitStmts]
  | cons x xs ih =>
    intro hls
    obtain ⟨l, rfl⟩ := hls x (List.mem_cons_self x xs)
    have h1 : visitStmt st (Stmt.simpleLine l) = (Stmt.simpleLine l, st) := by
      simp [visitStmt, leave_of_not_scope st l hflag]
    have h2 := ih (fun y hy => hls y (List.mem_cons_of_mem _ hy))
    simp [visitStmts, h1, h2]

/-! ### Extra fixtures for the claims -/

/-- The statement line `assert a != b`. -/
def exAssertNE : SimpleLine :=
  { body := [SmallStmt.Assert
      { test := Expr.Comparison (Expr.Name "a")
          [ComparisonTarget.mk
            (CompOp.NotEqual (PWs.SimpleWhitespace " ") (PWs.SimpleWhitespace " "))
            (Expr.Name "b")] }] }

/-- The statement line `assert a == b == c` (chained comparison). -/
def exAssertChain : SimpleLine :=
  { body := [SmallStmt.Assert
      { test := Expr.Comparison (Expr.Name "a")
          [ComparisonTarget.mk
            (CompOp.Equal (PWs.SimpleWhitespace " ") (PWs.SimpleWhitespace " "))
            (Expr.Name "b"),
           ComparisonTarget.mk
            (CompOp.Equal (PWs.SimpleWhitespace " ") (PWs.SimpleWhitespace " "))
            (Expr.Name "c")] }] }

/-- A qualifying-scope transformer state (inside test class, inside method). -/
def stInScope : State :=
  { in_test_class := true, in_method := true, num_changes := 0 }

/-! ### Claim theorems -/

/-- C1: for a statement line satisfying all three rewrite predicates (single
statement, an assert, condition a comparison with exactly one operator, that
operator `==`) while both scope flags are active, the line's entire body is
replaced by a single expression statement calling `self.assertEqual` with the
left and right operands as two positional arguments, plus the original
failure-message expression unchanged as a third positional argument when
present; the rewrite increments the per-traversal counter by exactly one and
changes nothing else of the transformer state (the scope flags are untouched,
so the counter is the rewriter's only observable effect). -/
theorem C1_rewrite_and_count (st : State) (line : SimpleLine) (a : AssertStmt)
    (left right : Expr) (wsb wsa : PWs)
    (h1 : st.in_test_class = true) (h2 : st.in_method = true)
    (hga : get_assert_statement line = some a)
    (htest : a.test = Expr.Comparison left
      [ComparisonTarget.mk (CompOp.Equal wsb wsa) right]) :
    leave_SimpleStatementLine st line =
      ({ line with body := [SmallStmt.ExprStmt (Expr.Call
          (Expr.Attribute (Expr.Name "self") "" "" "assertEqual")
          (Arg.mk left (some ⟨PWs.SimpleWhitespace "", strip_line_continuation wsa⟩) ::
            (match a.msg, a.comma with
              | some _, some c =>
                Arg.mk right (some { c with
                    whitespace_after := strip_line_continuation c.whitespace_after })
              | _, _ => Arg.mk right none) ::
            (match a.msg with
              | some m => [Arg.mk m none]
              | none => []))
          (PWs.SimpleWhitespace "") (PWs.SimpleWhitespace ""))] },
        { st with num_changes := st.num_changes + 1 }) := by
  have hflag : (st.in_test_class && st.in_method) = true := by rw [h1, h2]; rfl
  refine leave_scope_some st line _ hflag ?_
  unfold attempt_rewrite
  simp only [hga, htest]
  rcases hm : a.msg with _ | m <;> rcases hc : a.comma with _ | c <;>
    simp [hm, hc]

theorem C1_witness :
    leave_SimpleStatementLine stInScope exAssertAB =
      ({ exAssertAB with body := [SmallStmt.ExprStmt (Expr.Call
          (Expr.Attribute (Expr.Name "self") "" "" "assertEqual")
          [Arg.mk (Expr.Name "a") (some ⟨PWs.SimpleWhitespace "", PWs.SimpleWhitespace " "⟩),
           Arg.mk (Expr.Name "b") none]
          (PWs.SimpleWhitespace "") (PWs.SimpleWhitespace ""))] },
        { stInScope with num_changes := 1 }) :=
  C1_rewrite_and_count stInScope exAssertAB _ (Expr.Name "a") (Expr.Name "b")
    (PWs.SimpleWhitespace " ") (PWs.SimpleWhitespace " ") rfl rfl rfl rfl

/-- C2: the scope flags are cleared unconditionally on leaving a class /
function node (regardless of what happened inside); a statement line is
rewritten only when both flags are active, so an `assert a == b` inside a
plain function is left identical with rewrite count 0. -/
theorem C2_scope_lifecycle :
    (∀ (st : State) (n : String) (bases : List Expr) (body : List Stmt),
       ((visitStmt st (Stmt.classDef n bases body)).2).in_test_class = false) ∧
    (∀ (st : State) (n : String) (ps : List Param) (body : List Stmt),
       ((visitStmt st (Stmt.functionDef n ps body)).2).in_method = false) ∧
    (∀ (st : State) (l : SimpleLine), (st.in_test_class && st.in_method) = false →
       leave_SimpleStatementLine st l = (l, st)) ∧
    (transformModule [Stmt.functionDef "f" [⟨"x"⟩] [Stmt.simpleLine exAssertAB]] =
       ([Stmt.functionDef "f" [⟨"x"⟩] [Stmt.simpleLine exAssertAB]], 0)) := by
  refine ⟨?_, ?_, ?_, ?_⟩
  · intro st n bases body
    simp [visitStmt, leave_ClassDef]
  · intro st n ps body
    simp [visitStmt, leave_FunctionDef]
  · intro st l h
    exact leave_of_not_scope st l h
  · rfl

theorem C2_witness :
    leave_SimpleStatementLine {} exAssertAB = (exAssertAB, {}) :=
  C2_scope_lifecycle.2.2.1 {} exAssertAB rfl

/-- C3: inside a qualifying method, an assert whose condition uses a single
non-equality comparison operator, or a chained comparison with more than one
operator, is left untouched with the state (and hence the rewrite count)
unchanged. -/
theorem C3_operator_selectivity :
    (∀ (st : State) (line : SimpleLine) (a : AssertStmt)
       (left right : Expr) (op : CompOp),
       st.in_test_class = true → st.in_method = true →
       get_assert_statement line = some a →
       a.test = Expr.Comparison left [ComparisonTarget.mk op right] →
       (∀ wb wa, op ≠ CompOp.Equal wb wa) →
       leave_SimpleStatementLine st line = (line, st)) ∧
    (∀ (st : State) (line : SimpleLine) (a : AssertStmt)
       (left : Expr) (c1 c2 : ComparisonTarget) (rest : List ComparisonTarget),
       st.in_test_class = true → st.in_method = true →
       get_assert_statement line = some a →
       a.test = Expr.Comparison left (c1 :: c2 :: rest) →
       leave_SimpleStatementLine st line = (line, st)) := by
  constructor
  · intro st line a left right op h1 h2 hga htest hop
    have hflag : (st.in_test_class && st.in_method) = true := by rw [h1, h2]; rfl
    have har : attempt_rewrite line = none := by
      unfold attempt_rewrite
      simp only [hga, htest]
    exact leave_scope_none st line hflag har
  · intro st line a left c1 c2 rest h1 h2 hga htest
    have hflag : (st.in_test_class && st.in_method) = true := by rw [h1, h2]; rfl
    have har : attempt_rewrite line = none := by
      unfold attempt_rewrite
      simp only [hga, htest]
    exact leave_scope_none st line hflag har

theorem C3_witness :
    leave_SimpleStatementLine stInScope exAssertNE = (exAssertNE, stInScope) ∧
    leave_SimpleStatementLine stInScope exAssertChain = (exAssertChain, stInScope) :=
  ⟨C3_operator_selectivity.1 stInScope exAssertNE _ (Expr.Name "a") (Expr.Name "b")
      (CompOp.NotEqual (PWs.SimpleWhitespace " ") (PWs.SimpleWhitespace " "))
      rfl rfl rfl rfl (fun _ _ h => CompOp.noConfusion h),
   C3_operator_selectivity.2 stInScope exAssertChain _ (Expr.Name "a")
      (ComparisonTarget.mk
        (CompOp.Equal (PWs.SimpleWhitespace " ") (PWs.SimpleWhitespace " "))
        (Expr.Name "b"))
      (ComparisonTarget.mk
        (CompOp.Equal (PWs.SimpleWhitespace " ") (PWs.SimpleWhitespace " "))
        (Expr.Name "c"))
      [] rfl rfl rfl rfl⟩

/-- C4: a function declaration qualifies only when it has at least one
positional parameter and that first parameter is named `self`; visiting a
function whose parameter list is empty or whose first parameter has another
name leaves the transformer state unchanged, and such a method inside a
qualifying class (with straight-line body) is traversed without any rewrite
and returned identical, with the state unchanged. -/
theorem C4_static_method_exclusion :
    (∀ (st : State) (ps : List Param),
       ps.head?.map Param.name ≠ some "self" → visit_FunctionDef st ps = st) ∧
    (∀ (st : State) (n : String) (ps : List Param) (body : List Stmt),
       st.in_test_class = true → st.in_method = false →
       ps.head?.map Param.name ≠ some "self" →
       (∀ x ∈ body, ∃ l, x = Stmt.simpleLine l) →
       visitStmt st (Stmt.functionDef n ps body) =
         (Stmt.functionDef n ps body, st)) := by
  have part1 : ∀ (st : State) (ps : List Param),
      ps.head?.map Param.name ≠ some "self" → visit_FunctionDef st ps = st := by
    intro st ps hp
    unfold visit_FunctionDef
    split
    · cases ps with
      | nil => rfl
      | cons p rest =>
        have hps : ¬ p.name = "self" := by
          intro hx
          exact hp (by simp [hx])
        show (if p.name = "self" then { st with in_method := true } else st) = st
        rw [if_neg hps]
    · rfl
  refine ⟨part1, ?_⟩
  intro st n ps body h1 h2 hp hbody
  have hv : visit_FunctionDef st ps = st := part1 st ps hp
  have hflag : (st.in_test_class && st.in_method) = false := by
    rw [h1, h2]; rfl
  have hb := visitStmts_simpleLines_untouched st hflag body hbody
  simp only [visitStmt, hv, hb]
  have hL : leave_FunctionDef st = st :=
    State.ext3 _ _ rfl (by rw [leave_FunctionDef_im, h2]) rfl
  rw [hL]

theorem C4_witness :
    visitStmt { in_test_class := true }
        (Stmt.functionDef "helper" [⟨"cls"⟩] [Stmt.simpleLine exAssertAB]) =
      (Stmt.functionDef "helper" [⟨"cls"⟩] [Stmt.simpleLine exAssertAB],
        { in_test_class := true }) :=
  C4_static_method_exclusion.2 { in_test_class := true } "helper" [⟨"cls"⟩]
    [Stmt.simpleLine exAssertAB] rfl rfl (by simp)
    (fun x hx => ⟨exAssertAB, by simpa using hx⟩)

/-- C5: rewriting `assert a == b, "boom"` in a qualifying method yields
`self.assertEqual(a, b, "boom")` with the message expression unchanged as the
third argument; the comma after the first argument carries the
(continuation-stripped) whitespace that followed the original `==`, and the
comma before the message is the original assert's comma with its trailing
whitespace continuation-stripped.  The second conjunct checks the serialized
form of the spec's concrete example. -/
theorem C5_message_preservation :
    (∀ (st : State) (line : SimpleLine) (a : AssertStmt)
       (left right m : Expr) (wsb wsa : PWs) (c : Comma),
       st.in_test_class = true → st.in_method = true →
       get_assert_statement line = some a →
       a.test = Expr.Comparison left
         [ComparisonTarget.mk (CompOp.Equal wsb wsa) right] →
       a.msg = some m → a.comma = some c →
       leave_SimpleStatementLine st line =
         ({ line with body := [SmallStmt.ExprStmt (Expr.Call
             (Expr.Attribute (Expr.Name "self") "" "" "assertEqual")
             [Arg.mk left (some ⟨PWs.SimpleWhitespace "", strip_line_continuation wsa⟩),
              Arg.mk right (some { c with
                  whitespace_after := strip_line_continuation c.whitespace_after }),
              Arg.mk m none]
             (PWs.SimpleWhitespace "") (PWs.SimpleWhitespace ""))] },
           { st with num_changes := st.num_changes + 1 })) ∧
    lineToCode ((leave_SimpleStatementLine stInScope exAssertBoom).1) =
      "self.assertEqual(a, b, \"boom\")\n" := by
  constructor
  · intro st line a left right m wsb wsa c h1 h2 hga htest hm hc
    have hflag : (st.in_test_class && st.in_method) = true := by rw [h1, h2]; rfl
    refine leave_scope_some st line _ hflag ?_
    unfold attempt_rewrite
    simp only [hga, htest, hm, hc]
  · rfl

theorem C5_witness :
    leave_SimpleStatementLine stInScope exAssertBoom =
      ({ exAssertBoom with body := [SmallStmt.ExprStmt (Expr.Call
          (Expr.Attribute (Expr.Name "self") "" "" "assertEqual")
          [Arg.mk (Expr.Name "a") (some ⟨PWs.SimpleWhitespace "", PWs.SimpleWhitespace " "⟩),
           Arg.mk (Expr.Name "b") (some ⟨PWs.SimpleWhitespace "", PWs.SimpleWhitespace " "⟩),
           Arg.mk (Expr.SimpleString "\"boom\"") none]
          (PWs.SimpleWhitespace "") (PWs.SimpleWhitespace ""))] },
        { stInScope with num_changes := 1 }) :=
  C5_message_preservation.1 stInScope exAssertBoom _ (Expr.Name "a") (Expr.Name "b")
    (Expr.SimpleString "\"boom\"") (PWs.SimpleWhitespace " ") (PWs.SimpleWhitespace " ")
    { whitespace_after := PWs.SimpleWhitespace " " } rfl rfl rfl rfl rfl rfl

/-- C6: on a simple whitespace run containing an escaped line continuation
(after `"\r\n"` → `"\n"` normalization, which the operation performs first),
`strip_line_continuation` returns a structured `ParenthesizedWhitespace` whose
newline is the canonical default, whose tail (the text after the split point)
contains no further continuation sequence, and — for inputs satisfying the
`SimpleWhitespace` validity invariant that every newline is escaped — whose
simple-whitespace components contain no unescaped newline (the last line
contains no newline at all).  Runs without a continuation, and structured
whitespace, are returned unchanged. -/
theorem C6_strip_no_unescaped_newline :
    (∀ (v : String) (b a : List Char),
       rsplitBN (replaceCRLF v.data) = some (b, a) →
       strip_line_continuation (PWs.SimpleWhitespace v) =
         PWs.ParenthesizedWhitespace
           { whitespace := String.mk (pyRstrip b), comment := none, newline := none }
           [] false (String.mk a) ∧
       rsplitBN a = none ∧
       (noUnescNL (replaceCRLF v.data) = true →
          noUnescNL (pyRstrip b) = true ∧ ¬ '\n' ∈ a)) ∧
    (∀ v : String, rsplitBN (replaceCRLF v.data) = none →
       strip_line_continuation (PWs.SimpleWhitespace v) = PWs.SimpleWhitespace v) ∧
    (∀ (fl : TrailingWhitespace) (el : List String) (ind : Bool) (ll : String),
       strip_line_continuation (PWs.ParenthesizedWhitespace fl el ind ll) =
         PWs.ParenthesizedWhitespace fl el ind ll) := by
  refine ⟨?_, ?_, ?_⟩
  · intro v b a h
    refine ⟨?_, rsplitBN_after_none _ b a h, ?_⟩
    · simp only [strip_line_continuation, h]
    · intro hval
      obtain ⟨hb, _, hnl⟩ := rsplitBN_parts _ b a hval h
      exact ⟨noUnescNL_pyRstrip b hb, hnl⟩
  · intro v h
    simp only [strip_line_continuation, h]
  · intro fl el ind ll
    rfl

theorem C6_witness :
    strip_line_continuation (PWs.SimpleWhitespace " \\\n ") =
      PWs.ParenthesizedWhitespace
        { whitespace := "", comment := none, newline := none } [] false " " ∧
    rsplitBN [' '] = none ∧
    (noUnescNL (replaceCRLF (" \\\n ").data) = true →
       noUnescNL (pyRstrip [' ']) = true ∧ ¬ '\n' ∈ [' ']) :=
  C6_strip_no_unescaped_newline.1 " \\\n " [' '] [' '] (by decide)

/-- C7: when parsing the file's text fails, `transform_file` returns a count
of 0 and performs no write (the recorded written-back content is `none`, so
the file is untouched); the error is contained, not propagated. -/
theorem C7_parse_failure_skips (parse : String → Option (List Stmt))
    (serialize : List Stmt → String) (source : String)
    (h : parse source = none) :
    transform_file parse serialize source = (none, 0) := by
  simp [transform_file, h]

theorem C7_witness :
    transform_file (fun _ => none) (fun _ => "") "def f(:" = (none, 0) :=
  C7_parse_failure_skips (fun _ => none) (fun _ => "") "def f(:" rfl

/-- C8: `transform_file` writes back only when the rewrite count is positive;
whenever the returned count is 0 no write is performed and the file is left
unchanged. -/
theorem C8_write_only_when_changed (parse : String → Option (List Stmt))
    (serialize : List Stmt → String) (source : String)
    (h : (transform_file parse serialize source).2 = 0) :
    (transform_file parse serialize source).1 = none := by
  unfold transform_file at h ⊢
  cases hp : parse source with
  | none => rfl
  | some tree =>
    rw [hp] at h
    rcases ht : transformModule tree with ⟨nt, n⟩
    simp only [ht] at h ⊢
    by_cases hn : n > 0
    · rw [if_pos hn] at h
      simp at h
      omega
    · rw [if_neg hn]

theorem C8_witness :
    (transform_file (fun _ => some []) (fun _ => "") "").1 = none :=
  C8_write_only_when_changed (fun _ => some []) (fun _ => "") "" rfl

/-- C9: the transform is idempotent — re-running the traversal on the output
module of a first pass returns that module unchanged with a rewrite count of
0. -/
theorem C9_idempotent (m : List Stmt) :
    transformModule (transformModule m).1 = ((transformModule m).1, 0) := by
  have h := visit_idem_stmts {} m {} rfl rfl
  unfold transformModule
  rw [h]

/-- C10: a rewritten statement line keeps everything except its body — the
leading trivia lines and the trailing whitespace (inline comment and newline
included) are exactly those of the original line. -/
theorem C10_line_trivia_preserved (st : State) (line : SimpleLine) :
    (leave_SimpleStatementLine st line).1.leading_lines = line.leading_lines ∧
    (leave_SimpleStatementLine st line).1.trailing_whitespace =
      line.trailing_whitespace := by
  have h := leave_trivia st line
  constructor
  · conv_lhs => rw [h]
  · conv_lhs => rw [h]

end ConvertAssert
